import Mathlib

/-!
Shallow embedding of the Krotov optimization core (`src/krotov/optimize.py`)
and verification of the specification claims about it.

Conventions of the embedding:
* machine floats / numpy complex numbers are modelled over `ℚ` (pairs of `ℚ`
  for complex values), since the claims are structural rather than about
  floating-point rounding;
* fallible Python code (list indexing that can raise `IndexError`, explicit
  `raise`, calling `None`, reading an unbound local) is modelled in the
  `Except PyErr` monad;
* the external collaborators that the spec lists as out of scope (state
  algebra, propagator, chi constructor, hooks) are passed in as function
  parameters, mirroring how `optimize_pulses` receives them;
* `parallel_map(f, list(range(len(objectives))), args)` with the default
  `serial_map` applies `f` to each index in input order and returns the
  results in that order (per the spec's parallel-map contract), which is an
  indexed `List.map`;
* Hamiltonians are represented by the list of the operator parts of their
  terms: the source only ever accesses `objective.H[i][0]` (the operator of
  term `i`) and refers to controls through the integer pulse mapping, never
  through the control objects themselves.
-/

namespace Krotov

/-- Complex scalar, modelling a numpy complex value as a pair of rationals. -/
structure Cplx where
  re : ℚ
  im : ℚ
  deriving DecidableEq, Repr

instance : Add Cplx := ⟨fun a b => ⟨a.re + b.re, a.im + b.im⟩⟩

instance : Zero Cplx := ⟨⟨0, 0⟩⟩

/-- Scalar multiplication of a complex value by a real (rational) factor,
modelling `update *= chi_norms[i_obj]`. -/
def Cplx.smulQ (q : ℚ) (z : Cplx) : Cplx := ⟨q * z.re, q * z.im⟩

/-- Runtime errors of the embedded Python code. -/
inductive PyErr where
  /-- a list index out of range (`IndexError`) -/
  | indexError
  /-- `raise NotImplementedError(...)` -/
  | notImplemented
  /-- calling a `None` value (`TypeError`) -/
  | typeError
  /-- reading a local variable that was never assigned (`UnboundLocalError`) -/
  | unboundLocal
  deriving DecidableEq, Repr

instance {ε α : Type} [DecidableEq ε] [DecidableEq α] : DecidableEq (Except ε α) :=
  fun a b =>
    match a, b with
    | .error e, .error f =>
      if h : e = f then .isTrue (by rw [h])
      else .isFalse (by intro hh; cases hh; exact h rfl)
    | .error _, .ok _ => .isFalse (by intro hh; cases hh)
    | .ok _, .error _ => .isFalse (by intro hh; cases hh)
    | .ok x, .ok y =>
      if h : x = y then .isTrue (by rw [h])
      else .isFalse (by intro hh; cases hh; exact h rfl)

/-- Python list indexing `xs[i]` for a non-negative index: raises `IndexError`
when out of range. -/
def pyGet {α : Type} (xs : List α) (i : Nat) : Except PyErr α :=
  match xs.get? i with
  | some x => .ok x
  | none => .error .indexError

/-- The operations on states and operators that `optimize_pulses` consumes
from the (out-of-scope) quantum-state algebra: overlap (inner product), the
action of an operator on a state, the norm, division of a state by a scalar
(`chi / nrm`), and the operator-algebra operations used when substituting
pulse values and summing Hamiltonian terms. -/
structure Algebra (St Op : Type) where
  overlap : St → St → Cplx
  applyOp : Op → St → St
  norm : St → ℚ
  divNorm : St → ℚ → St
  addOp : Op → Op → Op
  smulOp : ℚ → Op → Op
  zeroOp : Op

/-- Per-control options (`PulseOptions`, defined in a module outside `src/`;
the fields are exactly the two attributes the driver reads:
`options_list[i].lambda_a` and `options_list[i].shape(t)`). -/
structure PulseOptions where
  lambda_a : ℚ
  shape : ℚ → ℚ

/-- Default `PulseOptions` used only as the `getD` fallback of the embedding
(the source guarantees one entry per control). -/
def dfltOptions : PulseOptions := ⟨0, fun _ => 0⟩

/-- One state-transfer problem. `H` lists the operator parts of the
Hamiltonian terms (`objective.H[i][0]` in the source); each collapse operator
in `c_ops` is likewise a list of term operators.  The `adjoint_H` /
`adjoint_c_ops` fields model `objective.adjoint`.
Modelled from the spec: the adjoint objective (derived by `objective.py`,
which is not under `src/`) has its operators Hermitian-conjugated and is
derived once per optimization and immutable thereafter; the embedding
carries it as data attached to the objective. -/
structure Objective (St Op : Type) where
  H : List Op
  c_ops : List (List Op)
  initial_state : St
  target_state : St
  adjoint_H : List Op
  adjoint_c_ops : List (List Op)

/-- Pulse-to-operator mapping for one objective: slot 0 is the Hamiltonian,
slot `1+ic` the `ic`-th collapse operator; each slot maps every pulse index to
the list of term positions within that slot depending on that pulse. -/
abbrev Mapping := List (List (List Nat))

/-- Accumulation loop of `_derivative_wrt_pulse`, translated verbatim from

`for i in ham_mapping[1:]: mu += objective.H[ham_mapping[i]][0]`

including the source's indexing of `ham_mapping` by its own elements. -/
def muAccum {St Op : Type} (A : Algebra St Op) (H : List Op) (hm : List Nat) :
    List Nat → Op → Except PyErr Op
  | [], mu => .ok mu
  | i :: rest, mu =>
    match pyGet hm i with
    | .error e => .error e
    | .ok j =>
      match pyGet H j with
      | .error e => .error e
      | .ok t => muAccum A H hm rest (A.addOp mu t)

/-- The collapse-operator check of `_derivative_wrt_pulse`:
`for i_c_op in range(len(objective.c_ops)): if len(mapping[i_c_op+1][i_pulse]) != 0: raise NotImplementedError`. -/
def copsCheck (mapping : Mapping) (iPulse : Nat) : List Nat → Except PyErr Unit
  | [] => .ok ()
  | iCop :: rest =>
    match pyGet mapping (iCop + 1) with
    | .error e => .error e
    | .ok slot =>
      match pyGet slot iPulse with
      | .error e => .error e
      | .ok lst =>
        if lst.length ≠ 0 then .error .notImplemented
        else copsCheck mapping iPulse rest

/-- Embedding of `_derivative_wrt_pulse(objective, pulses, mapping, i_pulse)`.
Returns `none` for the Python scalar `0` (empty Hamiltonian mapping) and
`some mu` otherwise.  The `pulses` argument is unused, exactly as in the
source. -/
def derivativeWrtPulse {St Op : Type} (A : Algebra St Op)
    (objective : Objective St Op) (pulses : List (List ℚ)) (mapping : Mapping)
    (iPulse : Nat) : Except PyErr (Option Op) :=
  match pyGet mapping 0 with
  | .error e => .error e
  | .ok slot0 =>
    match pyGet slot0 iPulse with
    | .error e => .error e
    | .ok hamMapping =>
      if hamMapping.length = 0 then
        .ok none
      else
        match pyGet hamMapping 0 with
        | .error e => .error e
        | .ok i0 =>
          match pyGet objective.H i0 with
          | .error e => .error e
          | .ok t0 =>
            match muAccum A objective.H hamMapping (hamMapping.drop 1) t0 with
            | .error e => .error e
            | .ok mu =>
              match copsCheck mapping iPulse (List.range objective.c_ops.length) with
              | .error e => .error e
              | .ok _ => .ok (some mu)

/-- Indexed map over a list, starting the index count at `i`.  This models
`parallel_map(f, list(range(len(xs))), args)` (the spec's ordered parallel-map
contract, with `serial_map` as the default) as well as Python's
`enumerate`. -/
def imap {α β : Type} (f : Nat → α → β) : Nat → List α → List β
  | _, [] => []
  | i, a :: as => f i a :: imap f (i + 1) as

/-- Time step of interval `k`: `dt = tlist[time_index+1] - tlist[time_index]`. -/
def dtAt (tlist : List ℚ) (k : Nat) : ℚ := tlist.getD (k + 1) 0 - tlist.getD k 0

/-- Modelled from the spec: `_tlist_midpoints` (in `structural_conversions.py`,
not under `src/`) returns the midpoint of each grid interval. -/
def tlistMidpoints (tlist : List ℚ) : List ℚ :=
  (List.range (tlist.length - 1)).map
    (fun k => (tlist.getD k 0 + tlist.getD (k + 1) 0) / 2)

/-- Modelled from the spec: `pulse_onto_tlist` (in `structural_conversions.py`,
not under `src/`) converts a pulse on the interval midpoints back to grid-point
samples for display: the two boundary points are copied from the adjacent
interval values, the interior points are the average of the two adjacent
interval values (the documented lossy inverse of the midpoint conversion). -/
def pulseOntoTlist (pulse : List ℚ) : List ℚ :=
  (List.range (pulse.length + 1)).map
    (fun i =>
      if i = 0 then pulse.getD 0 0
      else if i = pulse.length then pulse.getD (pulse.length - 1) 0
      else (pulse.getD (i - 1) 0 + pulse.getD i 0) / 2)

/-- Modelled from the spec: `plug_in_pulse_values` (in
`structural_conversions.py`, not under `src/`) builds the operator of one slot
with the current pulse values substituted into every control-dependent term:
a term position listed in the slot mapping of pulse `p` is scaled by
`pulses[p][time_index]`, unlisted terms are taken as-is, and the terms are
summed. -/
def plugInPulseValues {St Op : Type} (A : Algebra St Op) (terms : List Op)
    (pulses : List (List ℚ)) (slotMapping : List (List Nat))
    (timeIndex : Nat) : Op :=
  (List.range terms.length).foldl
    (fun acc j =>
      match (List.range slotMapping.length).find?
          (fun p => j ∈ slotMapping.getD p []) with
      | some p =>
        A.addOp acc
          (A.smulOp ((pulses.getD p []).getD timeIndex 0) (terms.getD j A.zeroOp))
      | none => A.addOp acc (terms.getD j A.zeroOp))
    A.zeroOp

/-- The propagator collaborator:
`propagator(H, state, dt, c_ops, backwards) -> state`. -/
abbrev Propagator (St Op : Type) := Op → St → ℚ → List Op → Bool → St

/-- The plugged-in Hamiltonian and collapse operators for slot mappings of one
objective at interval `k`, as assembled before each propagator call in the
source (`plug_in_pulse_values(obj.H, pulses, mapping[0], time_index)` and the
corresponding list comprehension over `obj.c_ops`). -/
def pluggedOps {St Op : Type} (A : Algebra St Op) (H : List Op)
    (c_ops : List (List Op)) (pulses : List (List ℚ)) (mapping : Mapping)
    (k : Nat) : Op × List Op :=
  (plugInPulseValues A H pulses (mapping.getD 0 []) k,
   imap (fun ic cop => plugInPulseValues A cop pulses (mapping.getD (ic + 1) []) k)
     0 c_ops)

/-- Forward trajectory builder: starting from state `s` at index `k`, performs
`n` single-interval steps `step k`, recording every intermediate state
(`storage_array[time_index+1] = state`).  The result has length `n + 1`. -/
def fwdBuild {St : Type} (step : Nat → St → St) (k : Nat) (s : St) :
    Nat → List St
  | 0 => [s]
  | n + 1 => s :: fwdBuild step (k + 1) (step k s) n

/-- Embedding of `_forward_propagation` with `store_all=True`: the initial
state of the objective is propagated over every interval of `tlist`, using the
guess pulses, with `backwards` left at its default `False`. -/
def forwardPropagation {St Op : Type} (A : Algebra St Op)
    (prop : Propagator St Op) (obj : Objective St Op)
    (pulses : List (List ℚ)) (mapping : Mapping) (tlist : List ℚ) : List St :=
  fwdBuild
    (fun k s =>
      let ops := pluggedOps A obj.H obj.c_ops pulses mapping k
      prop ops.1 s (dtAt tlist k) ops.2 false)
    0 obj.initial_state (tlist.length - 1)

/-- Backward trajectory builder: `bwdBuild step s n` is the list
`[s_0, …, s_n]` with `s_n = s` and `s_k = step k s_(k+1)`, filled in strictly
decreasing index order exactly as the source's
`for time_index in range(len(tlist)-2, -1, -1)` loop. -/
def bwdBuild {St : Type} (step : Nat → St → St) (s : St) : Nat → List St
  | 0 => [s]
  | k + 1 => bwdBuild step (step k s) k ++ [s]

/-- Embedding of `_backward_propagation`: the (already normalized) boundary
costate `chi` is stored at the last time index and propagated backwards over
every interval using the adjoint objective's operators with the current pulse
values, passing `backwards=True` to the propagator at every step. -/
def backwardPropagation {St Op : Type} (A : Algebra St Op)
    (prop : Propagator St Op) (chi : St) (obj : Objective St Op)
    (pulses : List (List ℚ)) (mapping : Mapping) (tlist : List ℚ) : List St :=
  bwdBuild
    (fun k s =>
      let ops := pluggedOps A obj.adjoint_H obj.adjoint_c_ops pulses mapping k
      prop ops.1 s (dtAt tlist k) ops.2 true)
    chi (tlist.length - 1)

/-- The inner accumulation of lines 157-165 of `optimize.py` for one pulse
index at one time index: for every objective (in order),
`update = χ.overlap(μ * Ψ); update *= chi_norms[i_obj]` is added to the
accumulator.  `μ = none` is the Python scalar `0`, for which the overlap with
`0 * Ψ` is `0`.  Errors raised by `_derivative_wrt_pulse` abort the sum. -/
def updateSumGo {St Op : Type} [Inhabited St] (A : Algebra St Op)
    (mappings : List Mapping) (guessPulses : List (List ℚ))
    (backwardStates : List (List St)) (chiNorms : List ℚ)
    (trajs : List (List St)) (k iPulse : Nat) :
    Nat → List (Objective St Op) → Cplx → Except PyErr Cplx
  | _, [], acc => .ok acc
  | iObj, obj :: rest, acc =>
    match derivativeWrtPulse A obj guessPulses (mappings.getD iObj []) iPulse with
    | .error e => .error e
    | .ok mu =>
      let chi := (backwardStates.getD iObj []).getD k default
      let psi := (trajs.getD iObj []).getD k default
      let upd : Cplx :=
        match mu with
        | none => 0
        | some m => A.overlap chi (A.applyOp m psi)
      updateSumGo A mappings guessPulses backwardStates chiNorms trajs k iPulse
        (iObj + 1) rest (acc + Cplx.smulQ (chiNorms.getD iObj 0) upd)

/-- The accumulated complex update `delta_eps[i_pulse][time_index]` for pulse
`iPulse` at time index `k`: the sum over all objectives of
`χ.overlap(μ * Ψ) * chi_norms[i_obj]`. -/
def updateSum {St Op : Type} [Inhabited St] (A : Algebra St Op)
    (objectives : List (Objective St Op)) (mappings : List Mapping)
    (guessPulses : List (List ℚ)) (backwardStates : List (List St))
    (chiNorms : List ℚ) (trajs : List (List St)) (k iPulse : Nat) :
    Except PyErr Cplx :=
  updateSumGo A mappings guessPulses backwardStates chiNorms trajs k iPulse
    0 objectives 0

/-- Error-free rendering of the same per-pulse accumulated update, used to
state what the code computes on a successful run (the error arm is
unreachable whenever the midpoint loop succeeds). -/
def pulseSumGo {St Op : Type} [Inhabited St] (A : Algebra St Op)
    (mappings : List Mapping) (guessPulses : List (List ℚ))
    (backwardStates : List (List St)) (chiNorms : List ℚ)
    (trajs : List (List St)) (k iPulse : Nat) :
    Nat → List (Objective St Op) → Cplx → Cplx
  | _, [], acc => acc
  | iObj, obj :: rest, acc =>
    let upd : Cplx :=
      match derivativeWrtPulse A obj guessPulses (mappings.getD iObj []) iPulse with
      | .ok (some m) =>
        A.overlap ((backwardStates.getD iObj []).getD k default)
          (A.applyOp m ((trajs.getD iObj []).getD k default))
      | _ => 0
    pulseSumGo A mappings guessPulses backwardStates chiNorms trajs k iPulse
      (iObj + 1) rest (acc + Cplx.smulQ (chiNorms.getD iObj 0) upd)

/-- The sum of claim C6:
`Σ_o overlap(χ_o(t_k), μ_(o,p) · ψ_o(t_k)) * chi_norm_o`. -/
def pulseUpdateSum {St Op : Type} [Inhabited St] (A : Algebra St Op)
    (objectives : List (Objective St Op)) (mappings : List Mapping)
    (guessPulses : List (List ℚ)) (backwardStates : List (List St))
    (chiNorms : List ℚ) (trajs : List (List St)) (k iPulse : Nat) : Cplx :=
  pulseSumGo A mappings guessPulses backwardStates chiNorms trajs k iPulse
    0 objectives 0

/-- The pulse-update pass of one midpoint (lines 156-169 of `optimize.py`):
for each pulse index, the accumulated complex update is computed, scaled by
`S / λ_a`, and its imaginary part is added into the optimized-pulse snapshot
at the current time index. -/
def updatePulsesAux {St Op : Type} [Inhabited St] (A : Algebra St Op)
    (objectives : List (Objective St Op)) (mappings : List Mapping)
    (optionsList : List PulseOptions) (guessPulses : List (List ℚ))
    (backwardStates : List (List St)) (chiNorms : List ℚ)
    (midpoints : List ℚ) (trajs : List (List St)) (k : Nat) :
    List Nat → List (List ℚ) → Except PyErr (List (List ℚ))
  | [], opt => .ok opt
  | iPulse :: rest, opt =>
    match updateSum A objectives mappings guessPulses backwardStates chiNorms
        trajs k iPulse with
    | .error e => .error e
    | .ok u =>
      let opts := optionsList.getD iPulse dfltOptions
      let deps := (opts.shape (midpoints.getD k 0) / opts.lambda_a) * u.im
      let row := opt.getD iPulse []
      updatePulsesAux A objectives mappings optionsList guessPulses
        backwardStates chiNorms midpoints trajs k rest
        (opt.set iPulse (row.set k (row.getD k 0 + deps)))

/-- The single-interval forward propagation of all objectives at time index
`k` (`_forward_propagation_step` mapped over the objectives), appending the
new state of each objective to its trajectory
(`forward_states[i_obj][time_index+1] = fw_states[i_obj]`).  The propagation
uses the just-updated optimized pulses. -/
def forwardStepAll {St Op : Type} [Inhabited St] (A : Algebra St Op)
    (prop : Propagator St Op) (objectives : List (Objective St Op))
    (mappings : List Mapping) (tlist : List ℚ)
    (optimized : List (List ℚ)) (trajs : List (List St)) (k : Nat) :
    List (List St) :=
  imap
    (fun o obj =>
      let tr := trajs.getD o []
      let s := tr.getD k default
      let ops := pluggedOps A obj.H obj.c_ops optimized (mappings.getD o []) k
      tr ++ [prop ops.1 s (dtAt tlist k) ops.2 false])
    0 objectives

/-- The interleaved forward-propagation / pulse-update loop over all interval
midpoints (lines 154-178 of `optimize.py`).  The first `Nat` argument is the
current time index, the second the number of midpoints still to process; the
loop carries the optimized-pulse snapshot, the forward trajectories, and the
most recent single-step propagation results (`fw_states`, `none` while that
local variable is still unbound). -/
def midLoop {St Op : Type} [Inhabited St] (A : Algebra St Op)
    (prop : Propagator St Op) (objectives : List (Objective St Op))
    (mappings : List Mapping) (optionsList : List PulseOptions)
    (guessPulses : List (List ℚ)) (backwardStates : List (List St))
    (chiNorms : List ℚ) (tlist midpoints : List ℚ) :
    Nat → Nat → List (List ℚ) → List (List St) → Option (List St) →
      Except PyErr (List (List ℚ) × List (List St) × Option (List St))
  | _, 0, opt, trajs, fwLast => .ok (opt, trajs, fwLast)
  | k, n + 1, opt, trajs, _ =>
    match updatePulsesAux A objectives mappings optionsList guessPulses
        backwardStates chiNorms midpoints trajs k
        (List.range guessPulses.length) opt with
    | .error e => .error e
    | .ok opt' =>
      let trajs' := forwardStepAll A prop objectives mappings tlist opt' trajs k
      let fw := trajs'.map (fun tr => tr.getD (tr.length - 1) default)
      midLoop A prop objectives mappings optionsList guessPulses
        backwardStates chiNorms tlist midpoints (k + 1) n opt' trajs' (some fw)

/-- The data produced by one Krotov iteration (lines 128-203 of
`optimize.py`). -/
structure IterOut (St : Type) where
  optimized : List (List ℚ)
  trajs : List (List St)
  backwardStates : List (List St)
  chiNorms : List ℚ
  fwT : List St
  tauVals : List Cplx

/-- The chi-constructor collaborator:
`chi_constructor(fw_states_T, objectives, tau_vals) -> list of costates`. -/
abbrev ChiConstructor (St Op : Type) :=
  List St → List (Objective St Op) → List (List Cplx) → List St

/-- The body of one Krotov iteration: construct the boundary costates from the
previous final states and accumulated tau history, normalize each by its own
norm, backward-propagate, then run the interleaved forward/update loop over
every midpoint and recompute the final-state overlaps. -/
def krotovIterationBody {St Op : Type} [Inhabited St] (A : Algebra St Op)
    (prop : Propagator St Op) (chi_constructor : ChiConstructor St Op)
    (objectives : List (Objective St Op)) (mappings : List Mapping)
    (optionsList : List PulseOptions) (tlist midpoints : List ℚ)
    (tauHistory : List (List Cplx)) (fwT : List St)
    (guessPulses : List (List ℚ)) : Except PyErr (IterOut St) :=
  let chis := chi_constructor fwT objectives tauHistory
  let chiNorms := chis.map A.norm
  let chiN := (chis.zip chiNorms).map (fun p => A.divNorm p.1 p.2)
  let backwardStates :=
    imap
      (fun i obj =>
        backwardPropagation A prop (chiN.getD i default) obj guessPulses
          (mappings.getD i []) tlist)
      0 objectives
  let initTrajs := objectives.map (fun o => [o.initial_state])
  match midLoop A prop objectives mappings optionsList guessPulses
      backwardStates chiNorms tlist midpoints 0 midpoints.length guessPulses
      initTrajs none with
  | .error e => .error e
  | .ok (_, _, none) => .error .unboundLocal
  | .ok (opt, trajs, some fw) =>
    let tau := (fw.zip objectives).map (fun p => A.overlap p.1 p.2.target_state)
    .ok ⟨opt, trajs, backwardStates, chiNorms, fw, tau⟩

/-- The arguments passed to the info hook (keyword arguments of the
`info_hook(...)` calls; the adjoint data is carried inside each objective). -/
structure InfoArgs (St Op : Type) where
  objectives : List (Objective St Op)
  backward_states : Option (List (List St))
  forward_states : List (List St)
  fw_states_T : List St
  tau_vals : List Cplx
  start_time : ℚ
  stop_time : ℚ
  iteration : Nat

/-- The optimization `Result` accumulator, restricted to the fields the driver
writes per iteration (the remaining fields of `result.py` — the copies of
`tlist`, the objectives and the timestamps — are plain input copies that no
claim concerns). -/
structure KResult (St Info : Type) where
  iters : List Nat
  iterSeconds : List Int
  infoVals : List (Option Info)
  tauVals : List (List Cplx)
  allPulses : List (List (List ℚ))
  optimizedControls : List (List ℚ)
  states : List St

/-- Python's `int(...)` applied to the elapsed seconds `toc - tic`; for the
non-negative elapsed times the driver measures this is the floor. -/
def pyInt (q : ℚ) : Int := q.floor

/-- The per-iteration loop of `optimize_pulses`
(`for krotov_iteration in range(iter_start+1, iter_stop+1)`).  The first `Nat`
argument is the current iteration number, the second the number of iterations
still to run; the loop carries the guess pulses, the previous final states,
the value of the local variable `optimized_pulses` (`none` while unbound) and
the result accumulated so far.  Wall-clock readings come from the `clock`
oracle (two readings per iteration). -/
def krotovLoop {St Op Info : Type} [Inhabited St] (A : Algebra St Op)
    (prop : Propagator St Op) (chi_constructor : ChiConstructor St Op)
    (info_hook : Option (InfoArgs St Op → Info))
    (objectives : List (Objective St Op)) (mappings : List Mapping)
    (optionsList : List PulseOptions) (tlist midpoints : List ℚ)
    (store_all_pulses : Bool) (clock : Nat → ℚ) :
    Nat → Nat → List (List ℚ) → List St → Option (List (List ℚ)) →
      KResult St Info →
      Except PyErr (KResult St Info × Option (List (List ℚ)))
  | _, 0, _, _, optOpt, result => .ok (result, optOpt)
  | k, n + 1, guess, fwT, _, result =>
    match krotovIterationBody A prop chi_constructor objectives mappings
        optionsList tlist midpoints result.tauVals fwT guess with
    | .error e => .error e
    | .ok out =>
      let tic := clock (2 * k)
      let toc := clock (2 * k + 1)
      let info := info_hook.map
        (fun f => f ⟨objectives, some out.backwardStates, out.trajs, out.fwT,
          out.tauVals, tic, toc, k⟩)
      let result' : KResult St Info :=
        ⟨result.iters ++ [k], result.iterSeconds ++ [pyInt (toc - tic)],
         result.infoVals ++ [info], result.tauVals ++ [out.tauVals],
         (if store_all_pulses then result.allPulses ++ [out.optimized]
          else result.allPulses),
         out.optimized, out.fwT⟩
      krotovLoop A prop chi_constructor info_hook objectives mappings
        optionsList tlist midpoints store_all_pulses clock (k + 1) n
        out.optimized out.fwT (some out.optimized) result'

/-- Embedding of `optimize_pulses`, starting from the initialized controls
(the control extraction and discretization of `_initialize_krotov_controls`
live in `structural_conversions.py`, outside `src/`; their outputs — the
guess pulses, the pulse mapping and the positional options list — are taken
as inputs here).  `check_convergence` is accepted but — exactly as in the
source, whose loop never references it — has no effect.  The iteration-0
phase calls the info hook unconditionally; `info_hook = none` therefore
raises a `TypeError` (calling `None`).  After the loop, the local
`optimized_pulses` is read during finalization: if the loop body never ran it
is unbound and an `UnboundLocalError` is raised. -/
def optimizePulses {St Op Info : Type} [Inhabited St] (A : Algebra St Op)
    (prop : Propagator St Op) (chi_constructor : ChiConstructor St Op)
    (info_hook : Option (InfoArgs St Op → Info))
    (check_convergence : Option (KResult St Info → Bool))
    (iter_start iter_stop : Nat) (store_all_pulses : Bool)
    (objectives : List (Objective St Op)) (mappings : List Mapping)
    (optionsList : List PulseOptions) (guessPulses : List (List ℚ))
    (tlist : List ℚ) (clock : Nat → ℚ) : Except PyErr (KResult St Info) :=
  let midpoints := tlistMidpoints tlist
  let forwardStates :=
    imap
      (fun i obj =>
        forwardPropagation A prop obj guessPulses (mappings.getD i []) tlist)
      0 objectives
  let fwT := forwardStates.map (fun states => states.getD (states.length - 1) default)
  let tau := (fwT.zip objectives).map (fun p => A.overlap p.1 p.2.target_state)
  let tic := clock 0
  let toc := clock 1
  match info_hook with
  | none => .error .typeError
  | some f =>
    let info := f ⟨objectives, none, forwardStates, fwT, tau, tic, toc, 0⟩
    let r0 : KResult St Info :=
      ⟨[0], [pyInt (toc - tic), pyInt (toc - tic)], [some info], [tau],
       (if store_all_pulses then [guessPulses] else []), [], fwT⟩
    match krotovLoop A prop chi_constructor info_hook objectives mappings
        optionsList tlist midpoints store_all_pulses clock (iter_start + 1)
        (iter_stop - iter_start) guessPulses fwT none r0 with
    | .error e => .error e
    | .ok (result, none) => .error .unboundLocal
    | .ok (result, some optimized) =>
      .ok ⟨result.iters, result.iterSeconds, result.infoVals, result.tauVals,
        result.allPulses, optimized.map pulseOntoTlist, result.states⟩

/-- A concrete algebra over trivial states with rational "operators", used to
evaluate the pulse-derivative routine on concrete inputs. -/
def ratAlg : Algebra Unit ℚ :=
  ⟨fun _ _ => 0, fun _ _ => (), fun _ => 1, fun _ _ => (), (· + ·), (· * ·), 0⟩

/-- A concrete objective whose Hamiltonian has three terms with operator
parts 5, 7 and 11 and no dissipation operators. -/
def objThreeTerms : Objective Unit ℚ := ⟨[5, 7, 11], [], (), (), [], []⟩

/-- A concrete objective with a single Hamiltonian term and one dissipation
operator. -/
def objWithCop : Objective Unit ℚ := ⟨[5], [[3]], (), (), [], []⟩

/-! Helper lemmas about the list combinators of the embedding. -/

theorem imap_get? {α β : Type} (f : Nat → α → β) (j : Nat) (l : List α)
    (i : Nat) : (imap f j l).get? i = (l.get? i).map (f (j + i)) := by
  induction l generalizing j i with
  | nil => simp [imap]
  | cons a as ih =>
    cases i with
    | zero => simp [imap]
    | succ i' =>
      simp only [imap, List.get?_cons_succ, ih (j + 1) i']
      rw [show j + 1 + i' = j + (i' + 1) by omega]

theorem imap_length {α β : Type} (f : Nat → α → β) (j : Nat) (l : List α) :
    (imap f j l).length = l.length := by
  induction l generalizing j with
  | nil => rfl
  | cons a as ih => simp [imap, ih]

theorem zip_map_self_get? {α β γ : Type} (f : α → β) (g : α × β → γ)
    (l : List α) (i : Nat) :
    ((l.zip (l.map f)).map g).get? i = (l.get? i).map (fun x => g (x, f x)) := by
  induction l generalizing i with
  | nil => simp
  | cons a as ih =>
    cases i with
    | zero => simp
    | succ i' => simpa using ih i'

theorem bwdBuild_length {St : Type} (step : Nat → St → St) (s : St) (n : Nat) :
    (bwdBuild step s n).length = n + 1 := by
  induction n generalizing s with
  | zero => rfl
  | succ k ih => simp [bwdBuild, ih]

theorem bwdBuild_get?_last {St : Type} (step : Nat → St → St) (s : St)
    (n : Nat) : (bwdBuild step s n).get? n = some s := by
  induction n generalizing s with
  | zero => rfl
  | succ k ih =>
    rw [bwdBuild, List.get?_append_right (by rw [bwdBuild_length])]
    rw [bwdBuild_length]
    simp

theorem bwdBuild_recurrence {St : Type} (step : Nat → St → St) (s : St)
    (n : Nat) (k : Nat) (hk : k < n) :
    (bwdBuild step s n).get? k = ((bwdBuild step s n).get? (k + 1)).map (step k) := by
  induction n generalizing s k with
  | zero => omega
  | succ m ih =>
    rw [bwdBuild]
    rcases Nat.lt_or_ge k m with hkm | hkm
    · rw [List.get?_append (by rw [bwdBuild_length]; omega),
        List.get?_append (by rw [bwdBuild_length]; omega)]
      exact ih (step m s) k hkm
    · have hk' : k = m := by omega
      subst hk'
      rw [List.get?_append (by rw [bwdBuild_length]; omega)]
      rw [bwdBuild_get?_last]
      rw [List.get?_append_right (by rw [bwdBuild_length])]
      rw [bwdBuild_length]
      simp

/-- A fully trivial algebra (unit states, unit operators) for concrete runs
of the driver. -/
def trivAlg : Algebra Unit Unit :=
  ⟨fun _ _ => ⟨0, 1⟩, fun _ _ => (), fun _ => 1, fun _ _ => (),
   fun _ _ => (), fun _ _ => (), ()⟩

/-- A stub propagator that returns the state unchanged. -/
def trivProp : Propagator Unit Unit := fun _ s _ _ _ => s

/-- A stub chi constructor returning the final states unchanged. -/
def trivChi : ChiConstructor Unit Unit := fun fwT _ _ => fwT

/-- An info hook that reports the iteration number. -/
def hookIter : InfoArgs Unit Unit → Nat := fun a => a.iteration

/-- A concrete single objective over the trivial algebra. -/
def oneObj : Objective Unit Unit := ⟨[()], [], (), (), [()], []⟩

/-- Claim C2 (status: code_bug).  The pulse-derivative routine is claimed to
return the sum of the operator parts of the Hamiltonian terms listed in the
pulse mapping, in particular `H[1] + H[2]` for the mapping `[1, 2]`.  The
source instead indexes `ham_mapping` by its own elements
(`objective.H[ham_mapping[i]][0]` with `i` ranging over `ham_mapping[1:]`):
on the mapping `[1, 2]` it evaluates `ham_mapping[2]`, which raises
`IndexError`, and on the mapping `[2, 0]` it silently returns
`H[2] + H[2] = 22` instead of the claimed `H[2] + H[0] = 16`. -/
theorem claim2_derivative_index_bug :
    derivativeWrtPulse ratAlg objThreeTerms [] [[[1, 2]]] 0
      = .error PyErr.indexError ∧
    derivativeWrtPulse ratAlg objThreeTerms [] [[[1, 2]]] 0
      ≠ .ok (some ((7 : ℚ) + 11)) ∧
    derivativeWrtPulse ratAlg objThreeTerms [] [[[2, 0]]] 0
      = .ok (some ((11 : ℚ) + 11)) ∧
    ((11 : ℚ) + 11) ≠ (11 : ℚ) + 5 := by
  refine ⟨rfl, by decide, rfl, by norm_num⟩

/-- Claim C3 (status: code_bug).  The claim states that the derivative
routine raises the unsupported-feature error (`NotImplementedError`) exactly
when some dissipation operator's pulse mapping for the requested pulse index
is non-empty — in particular also when the Hamiltonian mapping for that pulse
is empty.  In the source, `return 0` on an empty Hamiltonian mapping happens
*before* the dissipation check, so for a pulse that appears only in a
dissipation operator (Hamiltonian slot mapping `[]`, dissipation slot mapping
`[0]`) the routine returns `0` and no error is raised. -/
theorem claim3_dissipation_check_skipped :
    (([[[]], [[0]]] : Mapping).getD 1 []).getD 0 [] ≠ [] ∧
    derivativeWrtPulse ratAlg objWithCop [] [[[]], [[0]]] 0 = .ok none ∧
    derivativeWrtPulse ratAlg objWithCop [] [[[]], [[0]]] 0
      ≠ .error PyErr.notImplemented := by
  refine ⟨by decide, rfl, by decide⟩

/-- Claim C1 (status: code_bug).  The claim (and the docstring of
`optimize_pulses`) says a supplied convergence predicate is evaluated after
each iteration and a `True` return ends the loop early.  The loop of the
source never references `check_convergence`: the result is identical for any
two predicates (first conjunct), and a concrete run with an always-`True`
predicate and `iter_stop = 2` still performs iterations 1 and 2
(second conjunct). -/
theorem claim1_check_convergence_ignored :
    (∀ (St Op Info : Type) (inst : Inhabited St) (A : Algebra St Op)
        (prop : Propagator St Op) (chiC : ChiConstructor St Op)
        (ih : Option (InfoArgs St Op → Info))
        (cc cc' : Option (KResult St Info → Bool))
        (a b : Nat) (sap : Bool) (objs : List (Objective St Op))
        (maps : List Mapping) (opts : List PulseOptions)
        (gp : List (List ℚ)) (tl : List ℚ) (ck : Nat → ℚ),
      optimizePulses A prop chiC ih cc a b sap objs maps opts gp tl ck
        = optimizePulses A prop chiC ih cc' a b sap objs maps opts gp tl ck) ∧
    (optimizePulses trivAlg trivProp trivChi (some hookIter)
        (some (fun _ => true)) 0 2 false [oneObj] [[]] [] [] [0, 1]
        (fun _ => 0)).map (fun r => r.iters) = .ok [0, 1, 2] := by
  refine ⟨by intros; rfl, by decide⟩

/-- Claim C4 (status: code_bug).  The info hook is indeed invoked once per
iteration with its return value stored verbatim (second conjunct: a hook
reporting the iteration number yields stored info values 0, 1, 2 for a run
to `iter_stop = 2`), but the hook is not optional at iteration 0: the source
calls `info_hook(...)` there without the `None` guard that the loop has, so
`info_hook=None` raises a `TypeError` instead of completing with `None`
stored per iteration (first conjunct). -/
theorem claim4_info_hook_none_crash :
    (∀ (St Op Info : Type) (inst : Inhabited St) (A : Algebra St Op)
        (prop : Propagator St Op) (chiC : ChiConstructor St Op)
        (cc : Option (KResult St Info → Bool)) (a b : Nat) (sap : Bool)
        (objs : List (Objective St Op)) (maps : List Mapping)
        (opts : List PulseOptions) (gp : List (List ℚ)) (tl : List ℚ)
        (ck : Nat → ℚ),
      @optimizePulses St Op Info inst A prop chiC none cc a b sap objs maps
          opts gp tl ck = .error PyErr.typeError) ∧
    (optimizePulses trivAlg trivProp trivChi (some hookIter) none 0 2 false
        [oneObj] [[]] [] [] [0, 1] (fun _ => 0)).map (fun r => r.infoVals)
      = .ok [some 0, some 1, some 2] := by
  refine ⟨by intros; rfl, by decide⟩

/-- Claim C5 (status: code_bug).  For `iter_start = 0`, `iter_stop = 2` a
completed run produces `iters = [0, 1, 2]` as claimed, but `iter_seconds` has
4 entries, not 3: the source appends the iteration-0 seconds twice
(`result.iter_seconds.append(int(toc-tic))` appears on both line 118 and
line 120). -/
theorem claim5_iter_seconds_double_append :
    (optimizePulses trivAlg trivProp trivChi (some hookIter) none 0 2 false
        [oneObj] [[]] [] [] [0, 1] (fun _ => 0)).map
      (fun r => (r.iters, r.iterSeconds.length)) = .ok ([0, 1, 2], 4) := by
  decide

/-- Claim C10 (status: confirmed).  If `iter_stop ≤ iter_start` the
per-iteration loop body never executes, so the local `optimized_pulses` is
never assigned, and the finalization's
`for i, pulse in enumerate(optimized_pulses)` raises an
`UnboundLocalError` instead of returning the iteration-0 result.  (The info
hook must be supplied, otherwise the run dies earlier in the iteration-0
`TypeError` of claim C4.) -/
theorem claim10_empty_loop_unbound_local {St Op Info : Type} [Inhabited St]
    (A : Algebra St Op) (prop : Propagator St Op)
    (chiC : ChiConstructor St Op) (f : InfoArgs St Op → Info)
    (cc : Option (KResult St Info → Bool)) (a b : Nat) (sap : Bool)
    (objs : List (Objective St Op)) (maps : List Mapping)
    (opts : List PulseOptions) (gp : List (List ℚ)) (tl : List ℚ)
    (ck : Nat → ℚ) (h : b ≤ a) :
    optimizePulses A prop chiC (some f) cc a b sap objs maps opts gp tl ck
      = .error PyErr.unboundLocal := by
  unfold optimizePulses
  rw [Nat.sub_eq_zero_of_le h]
  rfl

/-- Witness for claim C10 at a concrete input (`iter_start = iter_stop = 0`). -/
theorem claim10_empty_loop_unbound_local_witness :
    (0 : Nat) ≤ 0 ∧
    optimizePulses trivAlg trivProp trivChi (some hookIter) none 0 0 false
      [oneObj] [[]] [] [] [0, 1] (fun _ => 0) = .error PyErr.unboundLocal :=
  ⟨Nat.le_refl 0,
   claim10_empty_loop_unbound_local trivAlg trivProp trivChi hookIter none
     0 0 false [oneObj] [[]] [] [] [0, 1] (fun _ => 0) (Nat.le_refl 0)⟩

theorem getD_of_get? {α : Type} {l : List α} {i : Nat} {x : α} (d : α)
    (h : l.get? i = some x) : l.getD i d = x := by
  induction l generalizing i with
  | nil => simp at h
  | cons a as ih =>
    cases i with
    | zero =>
      simp only [List.get?_cons_zero, Option.some.injEq] at h
      simp [List.getD, h]
    | succ i' =>
      simp only [List.get?_cons_succ] at h
      simpa [List.getD] using ih h

/-- Inversion of a successful iteration body: the backward-state and chi-norm
fields are exactly the values computed by lines 133-141 of `optimize.py`. -/
theorem iterationBody_fields {St Op : Type} [Inhabited St] (A : Algebra St Op)
    (prop : Propagator St Op) (chiC : ChiConstructor St Op)
    (objs : List (Objective St Op)) (maps : List Mapping)
    (opts : List PulseOptions) (tlist midpoints : List ℚ)
    (tauHist : List (List Cplx)) (fwT : List St) (guess : List (List ℚ))
    (out : IterOut St)
    (hbody : krotovIterationBody A prop chiC objs maps opts tlist midpoints
      tauHist fwT guess = .ok out) :
    out.backwardStates =
      imap
        (fun i obj =>
          backwardPropagation A prop
            ((((chiC fwT objs tauHist).zip
                ((chiC fwT objs tauHist).map A.norm)).map
              (fun p => A.divNorm p.1 p.2)).getD i default)
            obj guess (maps.getD i []) tlist)
        0 objs ∧
    out.chiNorms = (chiC fwT objs tauHist).map A.norm := by
  simp only [krotovIterationBody] at hbody
  split at hbody
  · exact absurd hbody (by simp)
  · exact absurd hbody (by simp)
  · cases hbody
    exact ⟨rfl, rfl⟩

/-- Claim C9 (status: confirmed).  In each iteration, the `i`-th boundary
costate `chi` returned by the chi constructor is normalized by its own norm
(computed once, at the boundary time, before backward propagation); the
backward propagation for objective `i` stores the normalized costate at the
last time index and fills every earlier index by stepping from the
next-higher index (strictly decreasing time order), using the adjoint
objective's operators with the current pulse values and passing
`backwards=True` to the propagator at every step. -/
theorem claim9_backward_propagation_spec {St Op : Type} [Inhabited St]
    (A : Algebra St Op) (prop : Propagator St Op)
    (chiC : ChiConstructor St Op) (objs : List (Objective St Op))
    (maps : List Mapping) (opts : List PulseOptions)
    (tlist midpoints : List ℚ) (tauHist : List (List Cplx)) (fwT : List St)
    (guess : List (List ℚ)) (out : IterOut St) (i : Nat) (chi : St)
    (obj : Objective St Op)
    (hbody : krotovIterationBody A prop chiC objs maps opts tlist midpoints
      tauHist fwT guess = .ok out)
    (hchi : (chiC fwT objs tauHist).get? i = some chi)
    (hobj : objs.get? i = some obj)
    (htl : 1 ≤ tlist.length) :
    out.chiNorms.get? i = some (A.norm chi) ∧
    out.backwardStates.get? i =
      some (backwardPropagation A prop (A.divNorm chi (A.norm chi)) obj guess
        (maps.getD i []) tlist) ∧
    (backwardPropagation A prop (A.divNorm chi (A.norm chi)) obj guess
      (maps.getD i []) tlist).length = tlist.length ∧
    (backwardPropagation A prop (A.divNorm chi (A.norm chi)) obj guess
      (maps.getD i []) tlist).get? (tlist.length - 1) =
      some (A.divNorm chi (A.norm chi)) ∧
    ∀ k, k < tlist.length - 1 →
      (backwardPropagation A prop (A.divNorm chi (A.norm chi)) obj guess
        (maps.getD i []) tlist).get? k =
      ((backwardPropagation A prop (A.divNorm chi (A.norm chi)) obj guess
        (maps.getD i []) tlist).get? (k + 1)).map
        (fun s =>
          prop
            (pluggedOps A obj.adjoint_H obj.adjoint_c_ops guess
              (maps.getD i []) k).1
            s (dtAt tlist k)
            (pluggedOps A obj.adjoint_H obj.adjoint_c_ops guess
              (maps.getD i []) k).2
            true) := by
  obtain ⟨hbw, hnorm⟩ := iterationBody_fields A prop chiC objs maps opts tlist
    midpoints tauHist fwT guess out hbody
  have hchiN :
      ((((chiC fwT objs tauHist).zip ((chiC fwT objs tauHist).map A.norm)).map
        (fun p => A.divNorm p.1 p.2)).getD i default) =
      A.divNorm chi (A.norm chi) := by
    refine getD_of_get? default ?_
    rw [zip_map_self_get? A.norm (fun p => A.divNorm p.1 p.2)
      (chiC fwT objs tauHist) i, hchi]
    rfl
  refine ⟨?_, ?_, ?_, ?_, ?_⟩
  · rw [hnorm, List.get?_map, hchi]
    rfl
  · rw [hbw, imap_get?, hobj, Nat.zero_add, Option.map_some']
    rw [hchiN]
  · rw [backwardPropagation, bwdBuild_length]
    omega
  · exact bwdBuild_get?_last _ _ _
  · intro k hk
    exact bwdBuild_recurrence _ _ _ k hk

/-- The concrete iteration output of the trivial one-objective run used as
the witness input for claim C9. -/
def c9out : IterOut Unit := ⟨[], [[(), ()]], [[(), ()]], [1], [()], [⟨0, 1⟩]⟩

/-- Witness for claim C9: the hypotheses hold on a concrete one-objective run
and the theorem yields the normalization and boundary-storage facts there. -/
theorem claim9_backward_propagation_spec_witness :
    (trivChi [()] [oneObj] []).get? 0 = some () ∧
    [oneObj].get? 0 = some oneObj ∧
    1 ≤ ([0, 1] : List ℚ).length ∧
    c9out.chiNorms.get? 0 = some (trivAlg.norm ()) ∧
    (backwardPropagation trivAlg trivProp
      (trivAlg.divNorm () (trivAlg.norm ())) oneObj []
      (([[]] : List Mapping).getD 0 []) [0, 1]).get?
        (([0, 1] : List ℚ).length - 1) =
      some (trivAlg.divNorm () (trivAlg.norm ())) := by
  have h := claim9_backward_propagation_spec trivAlg trivProp trivChi [oneObj]
    [[]] [] [0, 1] (tlistMidpoints [0, 1]) [] [()] [] c9out 0 () oneObj
    (by rfl) rfl rfl (by decide)
  exact ⟨rfl, rfl, by decide, h.1, h.2.2.2.1⟩

theorem set_getD_eq_self {α : Type} (l : List α) (k : Nat) (d : α) :
    l.set k (l.getD k d) = l := by
  induction l generalizing k with
  | nil => rfl
  | cons a as ih =>
    cases k with
    | zero => simp [List.getD]
    | succ k' =>
      have : (a :: as).getD (k' + 1) d = as.getD k' d := by simp [List.getD]
      rw [this, List.set_cons_succ, ih]

/-- With a shape value of `0` at the current midpoint, the pulse-update pass
of one midpoint leaves the optimized-pulse snapshot unchanged
(`Δε = (0 / λ_a) * Im(update) = 0`). -/
theorem updatePulsesAux_zero_shape {St Op : Type} [Inhabited St]
    (A : Algebra St Op) (objs : List (Objective St Op)) (maps : List Mapping)
    (opts : List PulseOptions) (guess : List (List ℚ))
    (bw : List (List St)) (chiN : List ℚ) (mid : List ℚ)
    (trajs : List (List St)) (k : Nat)
    (hshape : ∀ p, (opts.getD p dfltOptions).shape (mid.getD k 0) = 0) :
    ∀ (ps : List Nat) (opt opt' : List (List ℚ)),
      updatePulsesAux A objs maps opts guess bw chiN mid trajs k ps opt
        = .ok opt' → opt' = opt := by
  intro ps
  induction ps with
  | nil =>
    intro opt opt' h
    simp only [updatePulsesAux] at h
    cases h
    rfl
  | cons p rest ih =>
    intro opt opt' h
    simp only [updatePulsesAux] at h
    split at h
    · exact absurd h (by simp)
    · rw [hshape p, zero_div, zero_mul, add_zero, set_getD_eq_self,
        set_getD_eq_self] at h
      exact ih opt opt' h

/-- With shape values of `0` at every midpoint, the whole interleaved
forward/update loop leaves the optimized-pulse snapshot unchanged. -/
theorem midLoop_zero_shape {St Op : Type} [Inhabited St] (A : Algebra St Op)
    (prop : Propagator St Op) (objs : List (Objective St Op))
    (maps : List Mapping) (opts : List PulseOptions)
    (guess : List (List ℚ)) (bw : List (List St)) (chiN : List ℚ)
    (tlist mid : List ℚ)
    (hshape : ∀ p k, k < mid.length →
      (opts.getD p dfltOptions).shape (mid.getD k 0) = 0) :
    ∀ (n k : Nat) (opt : List (List ℚ)) (trajs : List (List St))
      (fwl : Option (List St)) (opt' : List (List ℚ))
      (trajs' : List (List St)) (fl : Option (List St)),
      k + n ≤ mid.length →
      midLoop A prop objs maps opts guess bw chiN tlist mid k n opt trajs fwl
        = .ok (opt', trajs', fl) → opt' = opt := by
  intro n
  induction n with
  | zero =>
    intro k opt trajs fwl opt' trajs' fl _ h
    simp only [midLoop] at h
    cases h
    rfl
  | succ m ih =>
    intro k opt trajs fwl opt' trajs' fl hk h
    simp only [midLoop] at h
    split at h
    · exact absurd h (by simp)
    · rename_i opt1 h1
      have h1' : opt1 = opt :=
        updatePulsesAux_zero_shape A objs maps opts guess bw chiN mid trajs k
          (fun p => hshape p k (by omega)) _ opt opt1 h1
      have := ih (k + 1) opt1 _ _ opt' trajs' fl (by omega) h
      rw [this, h1']

/-- With shape values of `0` at every midpoint, a successful iteration body
returns the guess pulses as its optimized pulses. -/
theorem iterationBody_zero_shape {St Op : Type} [Inhabited St]
    (A : Algebra St Op) (prop : Propagator St Op)
    (chiC : ChiConstructor St Op) (objs : List (Objective St Op))
    (maps : List Mapping) (opts : List PulseOptions) (tlist mid : List ℚ)
    (tauHist : List (List Cplx)) (fwT : List St) (guess : List (List ℚ))
    (out : IterOut St)
    (hshape : ∀ p k, k < mid.length →
      (opts.getD p dfltOptions).shape (mid.getD k 0) = 0)
    (hbody : krotovIterationBody A prop chiC objs maps opts tlist mid tauHist
      fwT guess = .ok out) : out.optimized = guess := by
  simp only [krotovIterationBody] at hbody
  split at hbody
  · exact absurd hbody (by simp)
  · exact absurd hbody (by simp)
  · rename_i opt trajs fw hml
    have hopt : opt = guess :=
      midLoop_zero_shape A prop objs maps opts guess _ _ tlist mid hshape
        mid.length 0 guess _ none opt trajs (some fw) (by omega) hml
    cases hbody
    exact hopt

/-- With shape values of `0` at every midpoint, the per-iteration loop only
ever appends the (unchanged) guess pulses to `all_pulses`, and the final
`optimized_pulses` value equals the guess pulses. -/
theorem krotovLoop_zero_shape {St Op Info : Type} [Inhabited St]
    (A : Algebra St Op) (prop : Propagator St Op)
    (chiC : ChiConstructor St Op) (ih0 : Option (InfoArgs St Op → Info))
    (objs : List (Objective St Op)) (maps : List Mapping)
    (opts : List PulseOptions) (tlist mid : List ℚ) (sap : Bool)
    (ck : Nat → ℚ)
    (hshape : ∀ p k, k < mid.length →
      (opts.getD p dfltOptions).shape (mid.getD k 0) = 0) :
    ∀ (n k : Nat) (guess : List (List ℚ)) (fwT : List St)
      (optOpt : Option (List (List ℚ))) (res res' : KResult St Info)
      (o' : Option (List (List ℚ))),
      krotovLoop A prop chiC ih0 objs maps opts tlist mid sap ck k n guess fwT
        optOpt res = .ok (res', o') →
      (∀ ps ∈ res'.allPulses, ps ∈ res.allPulses ∨ ps = guess) ∧
      (o' = optOpt ∨ o' = some guess) := by
  intro n
  induction n with
  | zero =>
    intro k guess fwT optOpt res res' o' h
    simp only [krotovLoop] at h
    cases h
    exact ⟨fun ps hps => Or.inl hps, Or.inl rfl⟩
  | succ m ih =>
    intro k guess fwT optOpt res res' o' h
    simp only [krotovLoop] at h
    split at h
    · exact absurd h (by simp)
    · rename_i out hbody
      have hopt : out.optimized = guess :=
        iterationBody_zero_shape A prop chiC objs maps opts tlist mid
          res.tauVals fwT guess out hshape hbody
      rw [hopt] at h
      obtain ⟨hmem, ho⟩ := ih (k + 1) guess out.fwT (some guess) _ res' o' h
      constructor
      · intro ps hps
        rcases hmem ps hps with hin | hg
        · by_cases hsap : sap = true
          · rw [hsap] at hin
            simp only [if_true] at hin
            rcases List.mem_append.mp hin with h1 | h2
            · exact Or.inl h1
            · simp only [List.mem_singleton] at h2
              exact Or.inr h2
          · rw [Bool.not_eq_true] at hsap
            rw [hsap] at hin
            simp only [Bool.false_eq_true, if_false] at hin
            exact Or.inl hin
        · exact Or.inr hg
      · rcases ho with h1 | h2
        · exact Or.inr h1
        · exact Or.inr h2

/-- Claim C7 (status: confirmed).  If every control's shape function returns
`0` at every interval midpoint, then every optimized-pulse snapshot recorded
by a completed run of `optimize_pulses` (with `store_all_pulses=True`) is
exactly the guess pulses, after any number of iterations, and the final
controls are the guess pulses converted back to the grid: every update
contribution is multiplied by the shape value. -/
theorem claim7_zero_shape_pulses_unchanged {St Op Info : Type} [Inhabited St]
    (A : Algebra St Op) (prop : Propagator St Op)
    (chiC : ChiConstructor St Op) (ih0 : Option (InfoArgs St Op → Info))
    (cc : Option (KResult St Info → Bool)) (a b : Nat)
    (objs : List (Objective St Op)) (maps : List Mapping)
    (opts : List PulseOptions) (gp : List (List ℚ)) (tlist : List ℚ)
    (ck : Nat → ℚ) (r : KResult St Info)
    (hshape : ∀ p k, k < (tlistMidpoints tlist).length →
      (opts.getD p dfltOptions).shape ((tlistMidpoints tlist).getD k 0) = 0)
    (hrun : optimizePulses A prop chiC ih0 cc a b true objs maps opts gp tlist
      ck = .ok r) :
    (∀ ps ∈ r.allPulses, ps = gp) ∧
    r.optimizedControls = gp.map pulseOntoTlist := by
  simp only [optimizePulses] at hrun
  split at hrun
  · exact absurd hrun (by simp)
  · split at hrun
    · exact absurd hrun (by simp)
    · exact absurd hrun (by simp)
    · rename_i result optimized hloop
      obtain ⟨hmem, ho⟩ := krotovLoop_zero_shape A prop chiC _ objs maps
        opts tlist (tlistMidpoints tlist) true ck hshape _ _ gp _ none _
        result (some optimized) hloop
      cases hrun
      have hoptg : optimized = gp := by
        rcases ho with h1 | h2
        · exact absurd h1 (by simp)
        · injection h2
      constructor
      · intro ps hps
        rcases hmem ps hps with hin | hg
        · simp at hin
          exact hin
        · exact hg
      · rw [hoptg]

/-- An empty result record, used as the `getD` fallback when projecting a
successful run's result out of the `Except`. -/
def dfltKResult : KResult Unit Nat := ⟨[], [], [], [], [], [], []⟩

/-- The zero-shape witness run for claim C7: one objective, one pulse (guess
value 1 on a single midpoint), shape ≡ 0, `iter_stop = 2`,
`store_all_pulses = True`. -/
def c7run : Except PyErr (KResult Unit Nat) :=
  optimizePulses trivAlg trivProp trivChi (some hookIter) none 0 2 true
    [oneObj] [[[[0]]]] [⟨1, fun _ => 0⟩] [[1]] [0, 1] (fun _ => 0)

/-- The result of the C7 witness run. -/
def c7res : KResult Unit Nat := c7run.toOption.getD dfltKResult

/-- Witness for claim C7: the zero-shape hypothesis holds on the concrete
run and every recorded pulse snapshot equals the guess pulses. -/
theorem claim7_zero_shape_pulses_unchanged_witness :
    (∀ p k, k < (tlistMidpoints [0, 1]).length →
      (([⟨1, fun _ => 0⟩] : List PulseOptions).getD p dfltOptions).shape
        ((tlistMidpoints [0, 1]).getD k 0) = 0) ∧
    c7run = .ok c7res ∧
    ((∀ ps ∈ c7res.allPulses, ps = [[1]]) ∧
     c7res.optimizedControls = [[1]].map pulseOntoTlist) := by
  have hs : ∀ p k, k < (tlistMidpoints [0, 1]).length →
      (([⟨1, fun _ => 0⟩] : List PulseOptions).getD p dfltOptions).shape
        ((tlistMidpoints [0, 1]).getD k 0) = 0 := by
    intro p k _
    cases p <;> rfl
  have hr : c7run = .ok c7res := by rfl
  exact ⟨hs, hr,
    claim7_zero_shape_pulses_unchanged trivAlg trivProp trivChi
      (some hookIter) none 0 2 [oneObj] [[[[0]]]] [⟨1, fun _ => 0⟩] [[1]]
      [0, 1] (fun _ => 0) c7res hs hr⟩

theorem getD_expand {α : Type} (l : List α) (i : Nat) (d : α) :
    l.getD i d = (l.get? i).getD d := by
  induction l generalizing i with
  | nil => cases i <;> rfl
  | cons a as ih =>
    cases i with
    | zero => rfl
    | succ i' => rw [List.getD_cons_succ, List.get?_cons_succ, ih]

theorem getD_congr_get? {α : Type} {l l' : List α} {i : Nat} (d : α)
    (h : l.get? i = l'.get? i) : l.getD i d = l'.getD i d := by
  rw [getD_expand, getD_expand, h]

theorem getD_set_self {α : Type} (l : List α) (k : Nat) (v d : α)
    (h : k < l.length) : (l.set k v).getD k d = v := by
  rw [getD_expand, List.get?_set_eq]
  rw [List.get?_eq_get h]
  rfl

/-- A successful per-pulse accumulation equals its error-free rendering. -/
theorem updateSumGo_ok {St Op : Type} [Inhabited St] (A : Algebra St Op)
    (maps : List Mapping) (guess : List (List ℚ)) (bw : List (List St))
    (chiN : List ℚ) (trajs : List (List St)) (k iPulse : Nat) :
    ∀ (l : List (Objective St Op)) (i0 : Nat) (acc u : Cplx),
      updateSumGo A maps guess bw chiN trajs k iPulse i0 l acc = .ok u →
      u = pulseSumGo A maps guess bw chiN trajs k iPulse i0 l acc := by
  intro l
  induction l with
  | nil =>
    intro i0 acc u h
    simp only [updateSumGo] at h
    cases h
    rfl
  | cons obj rest ih =>
    intro i0 acc u h
    simp only [updateSumGo] at h
    split at h
    · exact absurd h (by simp)
    · rename_i mu hmu
      simp only [pulseSumGo, hmu]
      cases mu with
      | none => exact ih (i0 + 1) _ u h
      | some m => exact ih (i0 + 1) _ u h

/-- The error-free per-pulse sum reads the trajectories only at the current
time index: two trajectory tables that agree there give the same sum. -/
theorem pulseSumGo_trajs_congr {St Op : Type} [Inhabited St]
    (A : Algebra St Op) (maps : List Mapping) (guess : List (List ℚ))
    (bw : List (List St)) (chiN : List ℚ) (t1 t2 : List (List St))
    (k iPulse : Nat)
    (h : ∀ o, (t1.getD o []).getD k default = (t2.getD o []).getD k default) :
    ∀ (l : List (Objective St Op)) (i0 : Nat) (acc : Cplx),
      pulseSumGo A maps guess bw chiN t1 k iPulse i0 l acc =
        pulseSumGo A maps guess bw chiN t2 k iPulse i0 l acc := by
  intro l
  induction l with
  | nil => intro i0 acc; rfl
  | cons obj rest ih =>
    intro i0 acc
    simp only [pulseSumGo, h i0]
    exact ih (i0 + 1) _

/-- Specification of the pulse-update pass at one midpoint: it writes exactly
the claimed increment into slot `k` of each processed pulse row, touches
nothing else, and preserves all lengths. -/
theorem updatePulsesAux_spec {St Op : Type} [Inhabited St] (A : Algebra St Op)
    (objs : List (Objective St Op)) (maps : List Mapping)
    (opts : List PulseOptions) (guess : List (List ℚ)) (bw : List (List St))
    (chiN : List ℚ) (mid : List ℚ) (trajs : List (List St)) (k : Nat) :
    ∀ (ps : List Nat), ps.Nodup →
      ∀ (opt opt' : List (List ℚ)),
      (∀ p ∈ ps, k < (opt.getD p []).length) →
      updatePulsesAux A objs maps opts guess bw chiN mid trajs k ps opt
        = .ok opt' →
      (∀ p i, i ≠ k → (opt'.getD p []).get? i = (opt.getD p []).get? i) ∧
      (∀ p, p ∉ ps → (opt'.getD p []).get? k = (opt.getD p []).get? k) ∧
      (∀ p ∈ ps, (opt'.getD p []).getD k 0 =
        (opt.getD p []).getD k 0 +
          ((opts.getD p dfltOptions).shape (mid.getD k 0) /
            (opts.getD p dfltOptions).lambda_a) *
            (pulseUpdateSum A objs maps guess bw chiN trajs k p).im) ∧
      (∀ p, (opt'.getD p []).length = (opt.getD p []).length) ∧
      opt'.length = opt.length := by
  intro ps
  induction ps with
  | nil =>
    intro _ opt opt' _ h
    simp only [updatePulsesAux] at h
    cases h
    exact ⟨fun _ _ _ => rfl, fun _ _ => rfl,
      fun p hp => absurd hp (List.not_mem_nil p), fun _ => rfl, rfl⟩
  | cons p0 rest ih =>
    intro hnd opt opt' hrow h
    obtain ⟨hp0nr, hndr⟩ := List.nodup_cons.mp hnd
    simp only [updatePulsesAux] at h
    split at h
    · exact absurd h (by simp)
    · rename_i u hu
      have hp0len : k < (opt.getD p0 []).length := hrow p0 (by simp)
      have hp0 : p0 < opt.length := by
        by_contra hc
        push_neg at hc
        rw [List.getD_eq_default _ _ hc] at hp0len
        simp at hp0len
      have hA_ne : ∀ p, p ≠ p0 →
          ((opt.set p0 ((opt.getD p0 []).set k ((opt.getD p0 []).getD k 0 +
            ((opts.getD p0 dfltOptions).shape (mid.getD k 0) /
              (opts.getD p0 dfltOptions).lambda_a) * u.im))).getD p [])
          = opt.getD p [] := by
        intro p hp
        exact getD_congr_get? [] (List.get?_set_ne _ _ (fun hh => hp hh.symm))
      have hA_p0 :
          ((opt.set p0 ((opt.getD p0 []).set k ((opt.getD p0 []).getD k 0 +
            ((opts.getD p0 dfltOptions).shape (mid.getD k 0) /
              (opts.getD p0 dfltOptions).lambda_a) * u.im))).getD p0 [])
          = (opt.getD p0 []).set k ((opt.getD p0 []).getD k 0 +
            ((opts.getD p0 dfltOptions).shape (mid.getD k 0) /
              (opts.getD p0 dfltOptions).lambda_a) * u.im) := by
        rw [getD_expand, List.get?_set_eq, List.get?_eq_get hp0]
        rfl
      have hrowA : ∀ p ∈ rest, k <
          (((opt.set p0 ((opt.getD p0 []).set k ((opt.getD p0 []).getD k 0 +
            ((opts.getD p0 dfltOptions).shape (mid.getD k 0) /
              (opts.getD p0 dfltOptions).lambda_a) * u.im))).getD p []).length) := by
        intro p hp
        have hpne : p ≠ p0 := fun hh => hp0nr (hh ▸ hp)
        rw [hA_ne p hpne]
        exact hrow p (by simp [hp])
      obtain ⟨c1, c2, c3, c4, c5⟩ := ih hndr _ opt' hrowA h
      have hu' : u = pulseUpdateSum A objs maps guess bw chiN trajs k p0 :=
        updateSumGo_ok A maps guess bw chiN trajs k p0 objs 0 0 u hu
      refine ⟨?_, ?_, ?_, ?_, ?_⟩
      · intro p i hik
        rw [c1 p i hik]
        by_cases hp : p = p0
        · subst hp
          rw [hA_p0, List.get?_set_ne _ _ (fun hh => hik hh.symm)]
        · rw [hA_ne p hp]
      · intro p hp
        have hpne : p ≠ p0 := fun hh => hp (by simp [hh])
        have hpnr : p ∉ rest := fun hh => hp (by simp [hh])
        rw [c2 p hpnr, hA_ne p hpne]
      · intro p hp
        rcases List.mem_cons.mp hp with hp1 | hp2
        · subst hp1
          have := c2 p hp0nr
          rw [getD_congr_get? 0 this, hA_p0,
            getD_set_self _ _ _ _ hp0len, hu']
        · have hpne : p ≠ p0 := fun hh => hp0nr (hh ▸ hp2)
          rw [c3 p hp2, hA_ne p hpne]
      · intro p
        rw [c4 p]
        by_cases hp : p = p0
        · subst hp
          rw [hA_p0, List.length_set]
        · rw [hA_ne p hp]
      · rw [c5, List.length_set]

theorem set_of_ge {α : Type} (l : List α) (i : Nat) (v : α)
    (h : l.length ≤ i) : l.set i v = l := by
  induction l generalizing i with
  | nil => rfl
  | cons a as ih =>
    cases i with
    | zero => simp at h
    | succ i' =>
      rw [List.set_cons_succ, ih i' (by simpa using h)]

/-- The pulse-update pass never touches entries at indices other than the
current time index and preserves all row lengths (no length or duplicate
assumptions needed). -/
theorem updatePulsesAux_stable {St Op : Type} [Inhabited St]
    (A : Algebra St Op) (objs : List (Objective St Op)) (maps : List Mapping)
    (opts : List PulseOptions) (guess : List (List ℚ)) (bw : List (List St))
    (chiN : List ℚ) (mid : List ℚ) (trajs : List (List St)) (k : Nat) :
    ∀ (ps : List Nat) (opt opt' : List (List ℚ)),
      updatePulsesAux A objs maps opts guess bw chiN mid trajs k ps opt
        = .ok opt' →
      (∀ p i, i ≠ k → (opt'.getD p []).get? i = (opt.getD p []).get? i) ∧
      (∀ p, (opt'.getD p []).length = (opt.getD p []).length) ∧
      opt'.length = opt.length := by
  intro ps
  induction ps with
  | nil =>
    intro opt opt' h
    simp only [updatePulsesAux] at h
    cases h
    exact ⟨fun _ _ _ => rfl, fun _ => rfl, rfl⟩
  | cons p0 rest ih =>
    intro opt opt' h
    simp only [updatePulsesAux] at h
    split at h
    · exact absurd h (by simp)
    · rename_i u hu
      obtain ⟨c1, c2, c3⟩ := ih _ opt' h
      by_cases hp0 : p0 < opt.length
      · have hA_p0 : ((opt.set p0 ((opt.getD p0 []).set k
            ((opt.getD p0 []).getD k 0 +
              ((opts.getD p0 dfltOptions).shape (mid.getD k 0) /
                (opts.getD p0 dfltOptions).lambda_a) * u.im))).getD p0 [])
            = (opt.getD p0 []).set k ((opt.getD p0 []).getD k 0 +
              ((opts.getD p0 dfltOptions).shape (mid.getD k 0) /
                (opts.getD p0 dfltOptions).lambda_a) * u.im) := by
          rw [getD_expand, List.get?_set_eq, List.get?_eq_get hp0]
          rfl
        refine ⟨?_, ?_, ?_⟩
        · intro p i hik
          rw [c1 p i hik]
          by_cases hp : p = p0
          · subst hp
            rw [hA_p0, List.get?_set_ne _ _ (fun hh => hik hh.symm)]
          · rw [getD_congr_get? [] (List.get?_set_ne _ _ (fun hh => hp hh.symm))]
        · intro p
          rw [c2 p]
          by_cases hp : p = p0
          · subst hp
            rw [hA_p0, List.length_set]
          · rw [getD_congr_get? [] (List.get?_set_ne _ _ (fun hh => hp hh.symm))]
        · rw [c3, List.length_set]
      · push_neg at hp0
        rw [set_of_ge _ _ _ hp0] at h c1 c2 c3
        exact ⟨c1, c2, c3⟩

/-- Each step of the interleaved loop appends exactly one state to the
trajectory of each objective. -/
theorem forwardStepAll_row {St Op : Type} [Inhabited St] (A : Algebra St Op)
    (prop : Propagator St Op) (objs : List (Objective St Op))
    (maps : List Mapping) (tlist : List ℚ) (opt : List (List ℚ))
    (trajs : List (List St)) (k o : Nat) (obj : Objective St Op)
    (hobj : objs.get? o = some obj) :
    (forwardStepAll A prop objs maps tlist opt trajs k).getD o [] =
      trajs.getD o [] ++
        [prop (pluggedOps A obj.H obj.c_ops opt (maps.getD o []) k).1
          ((trajs.getD o []).getD k default) (dtAt tlist k)
          (pluggedOps A obj.H obj.c_ops opt (maps.getD o []) k).2 false] := by
  rw [getD_expand, forwardStepAll, imap_get?, Nat.zero_add, hobj]
  rfl

theorem forwardStepAll_row_default {St Op : Type} [Inhabited St]
    (A : Algebra St Op) (prop : Propagator St Op)
    (objs : List (Objective St Op)) (maps : List Mapping) (tlist : List ℚ)
    (opt : List (List ℚ)) (trajs : List (List St)) (k o : Nat)
    (ho : objs.length ≤ o) :
    (forwardStepAll A prop objs maps tlist opt trajs k).getD o [] = [] := by
  apply List.getD_eq_default
  rw [forwardStepAll, imap_length]
  exact ho

theorem forwardStepAll_length {St Op : Type} [Inhabited St]
    (A : Algebra St Op) (prop : Propagator St Op)
    (objs : List (Objective St Op)) (maps : List Mapping) (tlist : List ℚ)
    (opt : List (List ℚ)) (trajs : List (List St)) (k : Nat) :
    (forwardStepAll A prop objs maps tlist opt trajs k).length = objs.length := by
  rw [forwardStepAll, imap_length]

/-- Once the interleaved loop has moved past a time index, the pulse entries
below it and the trajectory entries already stored never change again. -/
theorem midLoop_stable {St Op : Type} [Inhabited St] (A : Algebra St Op)
    (prop : Propagator St Op) (objs : List (Objective St Op))
    (maps : List Mapping) (opts : List PulseOptions)
    (guess : List (List ℚ)) (bw : List (List St)) (chiN : List ℚ)
    (tlist mid : List ℚ) :
    ∀ (n k : Nat) (opt : List (List ℚ)) (trajs : List (List St))
      (fwl : Option (List St)) (opt' : List (List ℚ))
      (trajs' : List (List St)) (fl : Option (List St)),
      trajs.length = objs.length →
      midLoop A prop objs maps opts guess bw chiN tlist mid k n opt trajs fwl
        = .ok (opt', trajs', fl) →
      (∀ p i, i < k → (opt'.getD p []).get? i = (opt.getD p []).get? i) ∧
      (∀ o i, i < (trajs.getD o []).length →
        (trajs'.getD o []).get? i = (trajs.getD o []).get? i) ∧
      (∀ p, (opt'.getD p []).length = (opt.getD p []).length) ∧
      trajs'.length = objs.length := by
  intro n
  induction n with
  | zero =>
    intro k opt trajs fwl opt' trajs' fl htl h
    simp only [midLoop] at h
    cases h
    exact ⟨fun _ _ _ => rfl, fun _ _ _ => rfl, fun _ => rfl, htl⟩
  | succ m ih =>
    intro k opt trajs fwl opt' trajs' fl htl h
    simp only [midLoop] at h
    split at h
    · exact absurd h (by simp)
    · rename_i opt1 hup
      obtain ⟨s1, s2, s3⟩ := updatePulsesAux_stable A objs maps opts guess bw
        chiN mid trajs k _ opt opt1 hup
      obtain ⟨d1, d2, d3, d4⟩ := ih (k + 1) opt1 _ _ opt' trajs' fl
        (forwardStepAll_length A prop objs maps tlist opt1 trajs k) h
      refine ⟨?_, ?_, ?_, d4⟩
      · intro p i hik
        rw [d1 p i (by omega), s1 p i (by omega)]
      · intro o i hi
        rcases Nat.lt_or_ge o objs.length with ho | ho
        · have hobj : objs.get? o = some (objs.get ⟨o, ho⟩) :=
            List.get?_eq_get ho
          have hrow := forwardStepAll_row A prop objs maps tlist opt1 trajs k
            o _ hobj
          have hlen_tr : i <
              ((forwardStepAll A prop objs maps tlist opt1 trajs k).getD o
                []).length := by
            rw [hrow]
            simp only [List.length_append, List.length_singleton]
            omega
          rw [d2 o i hlen_tr, hrow, List.get?_append hi]
        · have hemp : trajs.getD o [] = [] :=
            List.getD_eq_default _ _ (by omega)
          rw [hemp] at hi
          simp at hi
      · intro p
        rw [d3 p, s2 p]

/-- The interleaved loop's pulse-update formula: on a successful run, the
entry of pulse `p` at every processed time index `j` equals the entry at loop
entry plus `(S_p(t_j) / λ_a,p) · Im(Σ_o overlap(χ, μ·ψ) · χ_norm_o)`, where
the forward states are read from the final trajectories. -/
theorem midLoop_formula {St Op : Type} [Inhabited St] (A : Algebra St Op)
    (prop : Propagator St Op) (objs : List (Objective St Op))
    (maps : List Mapping) (opts : List PulseOptions)
    (guess : List (List ℚ)) (bw : List (List St)) (chiN : List ℚ)
    (tlist mid : List ℚ) :
    ∀ (n k : Nat) (opt : List (List ℚ)) (trajs : List (List St))
      (fwl : Option (List St)) (opt' : List (List ℚ))
      (trajs' : List (List St)) (fl : Option (List St)),
      trajs.length = objs.length →
      (∀ o, o < objs.length → (trajs.getD o []).length = k + 1) →
      (∀ p, p < guess.length → k + n ≤ (opt.getD p []).length) →
      midLoop A prop objs maps opts guess bw chiN tlist mid k n opt trajs fwl
        = .ok (opt', trajs', fl) →
      ∀ j, k ≤ j → j < k + n → ∀ p, p < guess.length →
        (opt'.getD p []).getD j 0 =
          (opt.getD p []).getD j 0 +
            ((opts.getD p dfltOptions).shape (mid.getD j 0) /
              (opts.getD p dfltOptions).lambda_a) *
              (pulseUpdateSum A objs maps guess bw chiN trajs' j p).im := by
  intro n
  induction n with
  | zero =>
    intro k opt trajs fwl opt' trajs' fl _ _ _ _ j hkj hjn
    omega
  | succ m ih =>
    intro k opt trajs fwl opt' trajs' fl htl htr hrows h j hkj hjn p hp
    simp only [midLoop] at h
    split at h
    · exact absurd h (by simp)
    · rename_i opt1 hup
      have hrow0 : ∀ q ∈ List.range guess.length,
          k < (opt.getD q []).length := by
        intro q hq
        have := hrows q (List.mem_range.mp hq)
        omega
      obtain ⟨u1, u2, u3, u4, u5⟩ := updatePulsesAux_spec A objs maps opts
        guess bw chiN mid trajs k _ (List.nodup_range _) opt opt1 hrow0 hup
      have htl1 : (forwardStepAll A prop objs maps tlist opt1 trajs k).length
          = objs.length := forwardStepAll_length A prop objs maps tlist opt1
          trajs k
      have htr1 : ∀ o, o < objs.length →
          ((forwardStepAll A prop objs maps tlist opt1 trajs k).getD o
            []).length = (k + 1) + 1 := by
        intro o ho
        rw [forwardStepAll_row A prop objs maps tlist opt1 trajs k o _
          (List.get?_eq_get ho)]
        simp only [List.length_append, List.length_singleton]
        rw [htr o ho]
      have hrows1 : ∀ q, q < guess.length →
          (k + 1) + m ≤ (opt1.getD q []).length := by
        intro q hq
        rw [u4 q]
        have := hrows q hq
        omega
      obtain ⟨s1, s2, s3, s4⟩ := midLoop_stable A prop objs maps opts guess
        bw chiN tlist mid m (k + 1) opt1 _ _ opt' trajs' fl htl1 h
      rcases Nat.lt_or_ge k j with hkj' | hkj'
      · have hih := ih (k + 1) opt1 _ _ opt' trajs' fl htl1 htr1 hrows1 h j
          (by omega) (by omega) p hp
        rw [hih, getD_congr_get? 0 (u1 p j (by omega))]
      · have hj : j = k := by omega
        subst hj
        rw [getD_congr_get? 0 (s1 p j (by omega)),
          u3 p (List.mem_range.mpr hp)]
        have hsum : pulseUpdateSum A objs maps guess bw chiN trajs j p =
            pulseUpdateSum A objs maps guess bw chiN trajs' j p := by
          unfold pulseUpdateSum
          apply pulseSumGo_trajs_congr
          intro o
          rcases Nat.lt_or_ge o objs.length with ho | ho
          · have hrow := forwardStepAll_row A prop objs maps tlist opt1 trajs
              j o _ (List.get?_eq_get ho)
            have h1 : ((forwardStepAll A prop objs maps tlist opt1 trajs
                j).getD o []).get? j = (trajs.getD o []).get? j := by
              rw [hrow]
              exact List.get?_append (by rw [htr o ho]; omega)
            have h2 : (trajs'.getD o []).get? j =
                ((forwardStepAll A prop objs maps tlist opt1 trajs j).getD o
                  []).get? j :=
              s2 o j (by rw [htr1 o ho]; omega)
            exact getD_congr_get? default ((h2.trans h1).symm)
          · have e1 : trajs.getD o [] = [] :=
              List.getD_eq_default _ _ (by omega)
            have e2 : trajs'.getD o [] = [] :=
              List.getD_eq_default _ _ (by omega)
            rw [e1, e2]
        rw [hsum]

/-- Inversion of a successful iteration body onto its interleaved-loop call. -/
theorem iterationBody_midLoop {St Op : Type} [Inhabited St] (A : Algebra St Op)
    (prop : Propagator St Op) (chiC : ChiConstructor St Op)
    (objs : List (Objective St Op)) (maps : List Mapping)
    (opts : List PulseOptions) (tlist mid : List ℚ)
    (tauHist : List (List Cplx)) (fwT : List St) (guess : List (List ℚ))
    (out : IterOut St)
    (hbody : krotovIterationBody A prop chiC objs maps opts tlist mid tauHist
      fwT guess = .ok out) :
    midLoop A prop objs maps opts guess out.backwardStates out.chiNorms tlist
        mid 0 mid.length guess (objs.map (fun o => [o.initial_state])) none
      = .ok (out.optimized, out.trajs, some out.fwT) := by
  simp only [krotovIterationBody] at hbody
  split at hbody
  · exact absurd hbody (by simp)
  · exact absurd hbody (by simp)
  · rename_i opt trajs fw hml
    cases hbody
    exact hml

/-- Claim C6 (status: confirmed).  At every grid-interval midpoint `t_k`, the
optimized value of pulse `p` produced by a successful iteration equals the
guess value at `t_k` plus
`(S_p(t_k) / λ_a,p) · Im(Σ_o overlap(χ_o(t_k), μ·ψ_o(t_k)) · χ_norm_o)`,
the sum ranging over all objectives, with only the imaginary part of the
complex overlap sum entering the real-valued update. -/
theorem claim6_pulse_update_formula {St Op : Type} [Inhabited St]
    (A : Algebra St Op) (prop : Propagator St Op)
    (chiC : ChiConstructor St Op) (objs : List (Objective St Op))
    (maps : List Mapping) (opts : List PulseOptions) (tlist mid : List ℚ)
    (tauHist : List (List Cplx)) (fwT : List St) (guess : List (List ℚ))
    (out : IterOut St)
    (hbody : krotovIterationBody A prop chiC objs maps opts tlist mid tauHist
      fwT guess = .ok out)
    (hlen : ∀ p, p < guess.length → mid.length ≤ (guess.getD p []).length)
    (k : Nat) (hk : k < mid.length) (p : Nat) (hp : p < guess.length) :
    (out.optimized.getD p []).getD k 0 =
      (guess.getD p []).getD k 0 +
        ((opts.getD p dfltOptions).shape (mid.getD k 0) /
          (opts.getD p dfltOptions).lambda_a) *
          (pulseUpdateSum A objs maps guess out.backwardStates out.chiNorms
            out.trajs k p).im := by
  have hml := iterationBody_midLoop A prop chiC objs maps opts tlist mid
    tauHist fwT guess out hbody
  exact midLoop_formula A prop objs maps opts guess out.backwardStates
    out.chiNorms tlist mid mid.length 0 guess _ none out.optimized out.trajs
    (some out.fwT) (by simp)
    (by
      intro o ho
      rw [getD_expand, List.get?_map, List.get?_eq_get ho]
      rfl)
    (by
      intro q hq
      simpa using hlen q hq)
    hml k (Nat.zero_le k) (by omega) p hp

/-- The default iteration output used when projecting a successful body run
out of the `Except`. -/
def dfltIterOut : IterOut Unit := ⟨[], [], [], [], [], []⟩

/-- The witness run for claim C6: one objective, one pulse (guess value 1 on
the single midpoint of the grid `[0, 1]`), shape ≡ 1, `λ_a = 1`. -/
def c6run : Except PyErr (IterOut Unit) :=
  krotovIterationBody trivAlg trivProp trivChi [oneObj] [[[[0]]]]
    [⟨1, fun _ => 1⟩] [0, 1] (tlistMidpoints [0, 1]) [] [()] [[1]]

/-- The iteration output of the C6 witness run. -/
def c6out : IterOut Unit := c6run.toOption.getD dfltIterOut

/-- Witness for claim C6: the hypotheses hold on a concrete one-pulse run
and the theorem yields the update formula at the single midpoint. -/
theorem claim6_pulse_update_formula_witness :
    c6run = .ok c6out ∧
    (∀ p, p < ([[1]] : List (List ℚ)).length →
      (tlistMidpoints [0, 1]).length ≤
        (([[1]] : List (List ℚ)).getD p []).length) ∧
    0 < (tlistMidpoints [0, 1]).length ∧
    0 < ([[1]] : List (List ℚ)).length ∧
    (c6out.optimized.getD 0 []).getD 0 0 =
      (([[1]] : List (List ℚ)).getD 0 []).getD 0 0 +
        ((([⟨1, fun _ => 1⟩] : List PulseOptions).getD 0 dfltOptions).shape
          ((tlistMidpoints [0, 1]).getD 0 0) /
          (([⟨1, fun _ => 1⟩] : List PulseOptions).getD 0
            dfltOptions).lambda_a) *
          (pulseUpdateSum trivAlg [oneObj] [[[[0]]]] [[1]]
            c6out.backwardStates c6out.chiNorms c6out.trajs 0 0).im := by
  have hlen : ∀ p, p < ([[1]] : List (List ℚ)).length →
      (tlistMidpoints [0, 1]).length ≤
        (([[1]] : List (List ℚ)).getD p []).length := by
    intro p hp
    have hp0 : p = 0 := Nat.lt_one_iff.mp (by simpa using hp)
    subst hp0
    decide
  exact ⟨rfl, hlen, by decide, by decide,
    claim6_pulse_update_formula trivAlg trivProp trivChi [oneObj] [[[[0]]]]
      [⟨1, fun _ => 1⟩] [0, 1] (tlistMidpoints [0, 1]) [] [()] [[1]] c6out
      rfl hlen 0 (by decide) 0 (by decide)⟩

/-! Frame model for claim C8.  The pulse arrays are numpy arrays mutated in
place by `optimized_pulses[i_pulse][time_index] += Δeps`; to state the
copy-on-update discipline of lines 153-178 and 206 of `optimize.py`, the
update phase is re-embedded over an explicit heap of pulse arrays addressed
by allocation order, with `copy.deepcopy(guess_pulses)` allocating fresh
addresses. -/

/-- A heap of pulse arrays addressed by allocation order. -/
structure PulseHeap where
  cells : List (List ℚ)

/-- Reading the pulse array stored at address `a`. -/
def PulseHeap.read (h : PulseHeap) (a : Nat) : List ℚ := h.cells.getD a []

/-- In-place write of entry `idx` of the pulse array at address `a`
(`array[time_index] += ...`). -/
def PulseHeap.write (h : PulseHeap) (a idx : Nat) (v : ℚ) : PulseHeap :=
  ⟨h.cells.set a ((h.cells.getD a []).set idx v)⟩

/-- `optimized_pulses = copy.deepcopy(guess_pulses)` (line 153): allocate one
fresh array per guess address, holding a copy of its contents, and return
the fresh addresses in order. -/
def deepcopyPulses (h : PulseHeap) (addrs : List Nat) : PulseHeap × List Nat :=
  addrs.foldl
    (fun acc a =>
      (⟨acc.1.cells ++ [acc.1.read a]⟩, acc.2 ++ [acc.1.cells.length]))
    (h, [])

/-- The pulse-update pass of one midpoint over the heap (lines 156-169): the
accumulated update is computed from the guess arrays (read through
`guessAddrs`) and the increment is written through the optimized-snapshot
address of the pulse. -/
def heapUpdateAux {St Op : Type} [Inhabited St] (A : Algebra St Op)
    (objs : List (Objective St Op)) (maps : List Mapping)
    (opts : List PulseOptions) (guessAddrs optAddrs : List Nat)
    (bw : List (List St)) (chiN : List ℚ) (mid : List ℚ)
    (trajs : List (List St)) (k : Nat) :
    List Nat → PulseHeap → Except PyErr PulseHeap
  | [], h => .ok h
  | iPulse :: rest, h =>
    match updateSum A objs maps (guessAddrs.map h.read) bw chiN trajs k
        iPulse with
    | .error e => .error e
    | .ok u =>
      let opts0 := opts.getD iPulse dfltOptions
      let deps := (opts0.shape (mid.getD k 0) / opts0.lambda_a) * u.im
      let a := optAddrs.getD iPulse 0
      heapUpdateAux A objs maps opts guessAddrs optAddrs bw chiN mid trajs k
        rest (h.write a k ((h.read a).getD k 0 + deps))

/-- The interleaved forward/update loop over the heap (lines 154-178): each
midpoint updates the optimized snapshot in place and then propagates all
objectives one step using the optimized values. -/
def heapMidLoop {St Op : Type} [Inhabited St] (A : Algebra St Op)
    (prop : Propagator St Op) (objs : List (Objective St Op))
    (maps : List Mapping) (opts : List PulseOptions)
    (guessAddrs optAddrs : List Nat) (bw : List (List St)) (chiN : List ℚ)
    (tlist mid : List ℚ) :
    Nat → Nat → PulseHeap → List (List St) →
      Except PyErr (PulseHeap × List (List St))
  | _, 0, h, trajs => .ok (h, trajs)
  | k, n + 1, h, trajs =>
    match heapUpdateAux A objs maps opts guessAddrs optAddrs bw chiN mid trajs
        k (List.range guessAddrs.length) h with
    | .error e => .error e
    | .ok h1 =>
      heapMidLoop A prop objs maps opts guessAddrs optAddrs bw chiN tlist mid
        (k + 1) n h1
        (forwardStepAll A prop objs maps tlist (optAddrs.map h1.read) trajs k)

/-- The update phase of one iteration over the heap: deep-copy the guess
arrays into a fresh snapshot (line 153), run the interleaved loop writing
only into the snapshot, and promote the snapshot's addresses as the next
iteration's guess (line 206, `guess_pulses = optimized_pulses`).  Returns
the final heap, the snapshot addresses and the promoted guess addresses. -/
def heapUpdatePhase {St Op : Type} [Inhabited St] (A : Algebra St Op)
    (prop : Propagator St Op) (objs : List (Objective St Op))
    (maps : List Mapping) (opts : List PulseOptions) (bw : List (List St))
    (chiN : List ℚ) (tlist mid : List ℚ) (h : PulseHeap)
    (guessAddrs : List Nat) :
    Except PyErr (PulseHeap × List Nat × List Nat) :=
  let dc := deepcopyPulses h guessAddrs
  match heapMidLoop A prop objs maps opts guessAddrs dc.2 bw chiN tlist mid 0
      mid.length dc.1 (objs.map (fun o => [o.initial_state])) with
  | .error e => .error e
  | .ok (h2, _) => .ok (h2, dc.2, dc.2)

theorem deepcopyPulses_spec : ∀ (addrs : List Nat) (h : PulseHeap)
    (acc : List Nat),
    (∃ ext : List (List ℚ),
      (addrs.foldl
        (fun acc a =>
          (⟨acc.1.cells ++ [acc.1.read a]⟩, acc.2 ++ [acc.1.cells.length]))
        (h, acc)).1.cells = h.cells ++ ext) ∧
    (∀ x ∈ (addrs.foldl
        (fun acc a =>
          (⟨acc.1.cells ++ [acc.1.read a]⟩, acc.2 ++ [acc.1.cells.length]))
        (h, acc)).2, x ∈ acc ∨ h.cells.length ≤ x) ∧
    (addrs.foldl
        (fun acc a =>
          (⟨acc.1.cells ++ [acc.1.read a]⟩, acc.2 ++ [acc.1.cells.length]))
        (h, acc)).2.length = acc.length + addrs.length := by
  intro addrs
  induction addrs with
  | nil =>
    intro h acc
    exact ⟨⟨[], by simp⟩, fun x hx => Or.inl hx, by simp⟩
  | cons a as ih =>
    intro h acc
    simp only [List.foldl_cons]
    obtain ⟨⟨ext1, he1⟩, hm1, hl1⟩ := ih ⟨h.cells ++ [h.read a]⟩
      (acc ++ [h.cells.length])
    refine ⟨⟨h.read a :: ext1, by simpa using he1⟩, ?_, ?_⟩
    · intro x hx
      rcases hm1 x hx with hx1 | hx2
      · rcases List.mem_append.mp hx1 with hx3 | hx4
        · exact Or.inl hx3
        · simp only [List.mem_singleton] at hx4
          exact Or.inr (by omega)
      · simp only [List.length_append, List.length_singleton] at hx2
        exact Or.inr (by omega)
    · simp only [List.length_append, List.length_singleton] at hl1
      simp only [List.length_cons]
      omega

theorem deepcopyPulses_cells (h : PulseHeap) (addrs : List Nat) :
    ∃ ext : List (List ℚ),
      (deepcopyPulses h addrs).1.cells = h.cells ++ ext := by
  unfold deepcopyPulses
  exact (deepcopyPulses_spec addrs h []).1

theorem deepcopyPulses_fresh (h : PulseHeap) (addrs : List Nat) :
    ∀ x ∈ (deepcopyPulses h addrs).2, h.cells.length ≤ x := by
  intro x hx
  rcases (deepcopyPulses_spec addrs h []).2.1 x hx with hx1 | hx2
  · exact absurd hx1 (List.not_mem_nil x)
  · exact hx2

theorem deepcopyPulses_length (h : PulseHeap) (addrs : List Nat) :
    (deepcopyPulses h addrs).2.length = addrs.length := by
  have := (deepcopyPulses_spec addrs h []).2.2
  unfold deepcopyPulses
  simpa using this

theorem heap_write_frame (h : PulseHeap) (a b idx : Nat) (v : ℚ)
    (hab : b ≠ a) : (h.write b idx v).read a = h.read a := by
  unfold PulseHeap.write PulseHeap.read
  exact getD_congr_get? [] (List.get?_set_ne _ _ hab)

/-- The per-midpoint update pass writes only through the snapshot addresses
of the processed pulse indices. -/
theorem heapUpdateAux_frame {St Op : Type} [Inhabited St] (A : Algebra St Op)
    (objs : List (Objective St Op)) (maps : List Mapping)
    (opts : List PulseOptions) (guessAddrs optAddrs : List Nat)
    (bw : List (List St)) (chiN : List ℚ) (mid : List ℚ)
    (trajs : List (List St)) (k : Nat) :
    ∀ (ps : List Nat) (h h' : PulseHeap),
      heapUpdateAux A objs maps opts guessAddrs optAddrs bw chiN mid trajs k
        ps h = .ok h' →
      ∀ a, (∀ q ∈ ps, optAddrs.getD q 0 ≠ a) → h'.read a = h.read a := by
  intro ps
  induction ps with
  | nil =>
    intro h h' hrun a _
    simp only [heapUpdateAux] at hrun
    cases hrun
    rfl
  | cons p0 rest ih =>
    intro h h' hrun a ha
    simp only [heapUpdateAux] at hrun
    split at hrun
    · exact absurd hrun (by simp)
    · rw [ih _ h' hrun a (fun q hq => ha q (by simp [hq])),
        heap_write_frame _ _ _ _ _ (ha p0 (by simp))]

/-- The interleaved loop over the heap writes only through the snapshot
addresses. -/
theorem heapMidLoop_frame {St Op : Type} [Inhabited St] (A : Algebra St Op)
    (prop : Propagator St Op) (objs : List (Objective St Op))
    (maps : List Mapping) (opts : List PulseOptions)
    (guessAddrs optAddrs : List Nat) (bw : List (List St)) (chiN : List ℚ)
    (tlist mid : List ℚ) :
    ∀ (n k : Nat) (h : PulseHeap) (trajs : List (List St)) (h' : PulseHeap)
      (trajs' : List (List St)),
      heapMidLoop A prop objs maps opts guessAddrs optAddrs bw chiN tlist mid
        k n h trajs = .ok (h', trajs') →
      ∀ a, (∀ q ∈ List.range guessAddrs.length, optAddrs.getD q 0 ≠ a) →
        h'.read a = h.read a := by
  intro n
  induction n with
  | zero =>
    intro k h trajs h' trajs' hrun a _
    simp only [heapMidLoop] at hrun
    cases hrun
    rfl
  | succ m ih =>
    intro k h trajs h' trajs' hrun a ha
    simp only [heapMidLoop] at hrun
    split at hrun
    · exact absurd hrun (by simp)
    · rename_i h1 h1run
      rw [ih (k + 1) h1 _ h' trajs' hrun a ha,
        heapUpdateAux_frame A objs maps opts guessAddrs optAddrs bw chiN mid
          trajs k _ h h1 h1run a ha]

/-- Claim C8 (status: confirmed).  Within a single iteration the guess pulse
arrays are never mutated: the update phase deep-copies them into a freshly
allocated snapshot (all snapshot addresses lie beyond the pre-existing
heap), every write of the interleaved loop goes through a snapshot address,
so every guess array reads back unchanged, and it is the fresh snapshot —
not the guess — that is promoted to become the next iteration's guess. -/
theorem claim8_copy_on_update_frame {St Op : Type} [Inhabited St]
    (A : Algebra St Op) (prop : Propagator St Op)
    (objs : List (Objective St Op)) (maps : List Mapping)
    (opts : List PulseOptions) (bw : List (List St)) (chiN : List ℚ)
    (tlist mid : List ℚ) (h : PulseHeap) (guessAddrs : List Nat)
    (h' : PulseHeap) (optAddrs newGuess : List Nat)
    (hvalid : ∀ a ∈ guessAddrs, a < h.cells.length)
    (hrun : heapUpdatePhase A prop objs maps opts bw chiN tlist mid h
      guessAddrs = .ok (h', optAddrs, newGuess)) :
    (∀ a ∈ guessAddrs, h'.read a = h.read a) ∧
    newGuess = optAddrs ∧
    (∀ a ∈ optAddrs, h.cells.length ≤ a) := by
  obtain ⟨ext, hext⟩ := deepcopyPulses_cells h guessAddrs
  have hfresh := deepcopyPulses_fresh h guessAddrs
  have hlen := deepcopyPulses_length h guessAddrs
  simp only [heapUpdatePhase] at hrun
  split at hrun
  · exact absurd hrun (by simp)
  · rename_i h2 trajs2 hml
    cases hrun
    refine ⟨?_, rfl, hfresh⟩
    intro a ha
    have hframe := heapMidLoop_frame A prop objs maps opts guessAddrs
      (deepcopyPulses h guessAddrs).2 bw chiN tlist mid mid.length 0 _ _ _
      _ hml a
      (by
        intro q hq
        have hq' : q < (deepcopyPulses h guessAddrs).2.length := by
          have := List.mem_range.mp hq
          omega
        have hmem : (deepcopyPulses h guessAddrs).2.getD q 0 ∈
            (deepcopyPulses h guessAddrs).2 := by
          rw [getD_expand, List.get?_eq_get hq']
          exact List.get_mem _ _ _
        have := hfresh _ hmem
        have := hvalid a ha
        omega)
    rw [hframe]
    unfold PulseHeap.read
    rw [hext]
    exact getD_congr_get? [] (List.get?_append (hvalid a ha))

/-- The witness run for claim C8: one pulse array `[1]` stored at heap
address 0, one objective, one midpoint. -/
def c8run : Except PyErr (PulseHeap × List Nat × List Nat) :=
  heapUpdatePhase trivAlg trivProp [oneObj] [[[[0]]]] [⟨1, fun _ => 1⟩]
    [[(), ()]] [1] [0, 1] (tlistMidpoints [0, 1]) ⟨[[1]]⟩ [0]

/-- The output of the C8 witness run. -/
def c8out : PulseHeap × List Nat × List Nat :=
  c8run.toOption.getD (⟨[]⟩, [], [])

/-- Witness for claim C8: the hypotheses hold on a concrete one-pulse run and
the theorem yields that the guess array is unchanged, the promoted guess is
the fresh snapshot, and the snapshot addresses are fresh. -/
theorem claim8_copy_on_update_frame_witness :
    (∀ a ∈ ([0] : List Nat), a < (⟨[[1]]⟩ : PulseHeap).cells.length) ∧
    c8run = .ok c8out ∧
    ((∀ a ∈ ([0] : List Nat),
      c8out.1.read a = (⟨[[1]]⟩ : PulseHeap).read a) ∧
     c8out.2.2 = c8out.2.1 ∧
     (∀ a ∈ c8out.2.1, (⟨[[1]]⟩ : PulseHeap).cells.length ≤ a)) := by
  have hv : ∀ a ∈ ([0] : List Nat),
      a < (⟨[[1]]⟩ : PulseHeap).cells.length := by decide
  exact ⟨hv, rfl,
    claim8_copy_on_update_frame trivAlg trivProp [oneObj] [[[[0]]]]
      [⟨1, fun _ => 1⟩] [[(), ()]] [1] [0, 1] (tlistMidpoints [0, 1])
      ⟨[[1]]⟩ [0] c8out.1 c8out.2.1 c8out.2.2 hv rfl⟩

end Krotov
